import Mathlib

/-!
Shallow embedding of the sandwich-attack detection and valuation core of the
`sandwichscan-app-fastapi` repository, together with theorems settling the
frozen claims about it.

Sources embedded:
  * `app/db/services/detect_sandwich_attacks_from_swaps.py`
      (direction classification, gas fee, constant-product output,
       inline harm computation, the SQL candidate matcher, the window loop,
       the per-candidate revenue computation, the insert-on-conflict call)
  * `app/db/services/update_harm_on_sandwich_attack.py`
      (`swap_out_v2`, `to_base_from_delta_out`, `_compute_harm_base_raw`,
       and the BigQuery sync-event selection SQL)
  * `app/db/services/update_profit_on_sandwich_attack.py`
      (`fetch_revenue_base_raw`)
  * `app/models/sandwich_attack.py` (the `uq_sandwich_triplet` unique key)

Modelling conventions:
  * Python `int` is `Int`; Python floor division `//` is `Int.fdiv`.
  * Python `Decimal` arithmetic (context precision 60 in the detection
    script) is modelled as exact rational arithmetic on `ℚ` with the
    rounding mode (`ROUND_HALF_EVEN` / `ROUND_FLOOR`) applied explicitly at
    the `to_integral_value` call; at every concrete input used in a witness
    or counterexample below the Decimal computation is exact (well inside
    60 significant digits), so the model agrees with the source there.
  * `Optional[int]` fields are `Option Int`; SQL `NULL` comparison semantics
    (`NULL = x` is not true) is `sqlEqOpt`.
  * Async database / BigQuery fetches are modelled by passing the fetched
    value (or the row list the query ranges over) as an explicit argument;
    an unreachable data source is the `none` / empty outcome.
-/

/-- Mirror of the projected swap row used by the detector
(`SwapRow` dataclass in `detect_sandwich_attacks_from_swaps.py`). -/
structure SwapRow where
  id : Nat
  chain_id : Nat
  defi_pool_id : Nat
  amount0_in_raw : Int
  amount1_in_raw : Int
  amount0_out_raw : Int
  amount1_out_raw : Int
  sell_token_id : Option Nat
  buy_token_id : Option Nat
  block_number : Nat
  log_index : Nat
  tx_from : String
  gas_used : Option Int
  gas_price_wei_effective : Option Int
  gas_price_wei_legacy : Option Int
deriving Repr, DecidableEq

/-- `_dir_token0_to_token1` from `detect_sandwich_attacks_from_swaps.py`. -/
def dir_token0_to_token1 (s : SwapRow) : Bool :=
  s.amount0_in_raw > 0 && s.amount1_out_raw > 0 &&
  s.amount1_in_raw == 0 && s.amount0_out_raw == 0

/-- `_dir_token1_to_token0` from `detect_sandwich_attacks_from_swaps.py`. -/
def dir_token1_to_token0 (s : SwapRow) : Bool :=
  s.amount1_in_raw > 0 && s.amount0_out_raw > 0 &&
  s.amount0_in_raw == 0 && s.amount1_out_raw == 0

/-- The `dir_sign` CASE expression of the detector SQL: `-1` for
token0→token1, `+1` for token1→token0, `0` (ambiguous) otherwise. -/
def dirSign (s : SwapRow) : Int :=
  if dir_token0_to_token1 s then -1
  else if dir_token1_to_token0 s then 1
  else 0

/-- The inner `pick` helper of `_attacker_gas_fee_wei`: prefer the first
(effective) gas price, fall back to the second (legacy). -/
def pickGasPrice (p q : Option Int) : Option Int :=
  match p with
  | some x => some x
  | none => q

/-- One iteration of the accumulation loop in `_attacker_gas_fee_wei`:
add `gas_used * gas_price` for a leg whose data is present, and mark the
total as known. -/
def gasFeeStep (acc : Int × Bool) (s : SwapRow) : Int × Bool :=
  match s.gas_used with
  | none => acc
  | some gu =>
    match pickGasPrice s.gas_price_wei_effective s.gas_price_wei_legacy with
    | none => acc
    | some gp => (acc.1 + gu * gp, true)

/-- `_attacker_gas_fee_wei` from `detect_sandwich_attacks_from_swaps.py`:
fold the accumulation loop over the two attacker legs; return the total if
any leg contributed, `None` otherwise. -/
def attacker_gas_fee_wei (front_attack_swap back_attack_swap : SwapRow) : Option Int :=
  let r := gasFeeStep (gasFeeStep (0, false) front_attack_swap) back_attack_swap
  if r.2 then some r.1 else none

/-- `_get_amount_out` from `detect_sandwich_attacks_from_swaps.py`
(constant-product output with the hard-coded 997/1000 fee). -/
def get_amount_out (amount_in reserve_in reserve_out : Int) : Int :=
  -- FEE_NUM = 997, FEE_DEN = 1000
  if amount_in ≤ 0 ∨ reserve_in ≤ 0 ∨ reserve_out ≤ 0 then 0
  else
    let amt_in_fee := amount_in * 997
    let num := amt_in_fee * reserve_out
    let den := reserve_in * 1000 + amt_in_fee
    if den = 0 then 0 else Int.fdiv num den

/-- `_get_amount_out_with_fee` from `detect_sandwich_attacks_from_swaps.py`
(constant-product output with a basis-point fee over 10_000). -/
def get_amount_out_with_fee (amount_in reserve_in reserve_out fee_bps : Int) : Int :=
  if amount_in ≤ 0 ∨ reserve_in ≤ 0 ∨ reserve_out ≤ 0 then 0
  else
    let fee_den : Int := 10000
    let fee_num := fee_den - fee_bps
    let amt_in_fee := amount_in * fee_num
    let num := amt_in_fee * reserve_out
    let den := reserve_in * fee_den + amt_in_fee
    if den = 0 then 0 else Int.fdiv num den

/-- `swap_out_v2` from `update_harm_on_sandwich_attack.py`
(constant-product output with fee_num, fee_den = 3000, 1_000_000). -/
def swap_out_v2 (r_in r_out x_in : Int) : Int :=
  if x_in ≤ 0 ∨ r_in ≤ 0 ∨ r_out ≤ 0 then 0
  else
    let x_eff_num := x_in * (1000000 - 3000)
    Int.fdiv (x_eff_num * r_out) (r_in * 1000000 + x_eff_num)

example : get_amount_out_with_fee 1000 1000000 1000000 30 = 996 := by decide
example : get_amount_out 1000 1000000 1000000 = 996 := by decide
example : get_amount_out 10 1000 2000 = 19 := by decide

/-- Decimal `to_integral_value(rounding="ROUND_HALF_EVEN")` on an exact
rational value: round to the nearest integer, ties to the even integer. -/
def roundHalfEven (q : ℚ) : Int :=
  let f := ⌊q⌋
  let r := q - f
  if r < 1/2 then f else if 1/2 < r then f + 1 else if Even f then f else f + 1

/-- Decimal `to_integral_value(rounding="ROUND_FLOOR")` on an exact rational
value: round toward negative infinity. -/
def roundFloor (q : ℚ) : Int := ⌊q⌋

/-- SQL three-valued equality on nullable columns: `a = b` holds only when
both sides are non-NULL and equal. Also used for Python `optional == value`
comparisons against a known-present value. -/
def sqlEqOpt (a b : Option Nat) : Bool :=
  match a, b with
  | some x, some y => x == y
  | _, _ => false

/-- `to_base_from_delta_out` from `update_harm_on_sandwich_attack.py`
(closure over `r0`, `r1`, `base_is_token0`): convert a small output delta to
base-token raw units at the spot reserve ratio, by integer floor division. -/
def to_base_from_delta_out (r0 r1 : Int) (base_is_token0 : Bool)
    (delta_out : Int) (out_is_token0 : Bool) : Int :=
  if delta_out ≤ 0 then 0
  else if base_is_token0 then
    if out_is_token0 then delta_out
    else Int.fdiv (delta_out * r0) (max r1 1)
  else
    if !out_is_token0 then delta_out
    else Int.fdiv (delta_out * r1) (max r0 1)

/-- `_compute_harm_base_raw` from `update_harm_on_sandwich_attack.py`.
The BigQuery reserve fetch is passed in as `reserves` (its `None` outcome is
`none`); `base_is_token0` is `front_attack_swap.sell_token_id == pool.token0_id`
and `v0i …` are the victim swap amounts (`or 0` applied to NULLs). -/
def compute_harm_base_raw_update (reserves : Option (Int × Int))
    (base_is_token0 : Bool) (v0i v1i v0o v1o : Int) : Int :=
  match reserves with
  | none => 0
  | some (r0, r1) =>
    if base_is_token0 then
      let out_noattack := swap_out_v2 r0 r1 v0i
      let harm_out_token1 := max (out_noattack - v1o) 0
      to_base_from_delta_out r0 r1 base_is_token0 harm_out_token1 false
    else
      let out_noattack := swap_out_v2 r1 r0 v1i
      let harm_out_token0 := max (out_noattack - v0o) 0
      to_base_from_delta_out r0 r1 base_is_token0 harm_out_token0 true

/-- `_compute_harm_base_raw` from `detect_sandwich_attacks_from_swaps.py`
(the inline harm computation of the detection pass). The reserve fetch is
the `reserves` argument; Decimal arithmetic is modelled exactly on `ℚ` with
half-even rounding at the `to_integral_value` call. -/
def compute_harm_base_raw_detect (reserves : Option (Int × Int))
    (base_is_token0 : Bool) (victim : SwapRow) : Int :=
  match reserves with
  | none => 0
  | some (r0, r1) =>
    let v_a0i := victim.amount0_in_raw
    let v_a1i := victim.amount1_in_raw
    let v_a0o := victim.amount0_out_raw
    let v_a1o := victim.amount1_out_raw
    if v_a0i > 0 ∧ v_a1o > 0 ∧ v_a1i = 0 ∧ v_a0o = 0 then
      let cf_token1 := get_amount_out v_a0i r0 r1
      let delta_token1 := cf_token1 - v_a1o
      if base_is_token0 then
        let price0_per_1 : ℚ := if r1 = 0 then 0 else (r0 : ℚ) / (r1 : ℚ)
        roundHalfEven ((delta_token1 : ℚ) * price0_per_1)
      else delta_token1
    else if v_a1i > 0 ∧ v_a0o > 0 ∧ v_a0i = 0 ∧ v_a1o = 0 then
      let cf_token0 := get_amount_out v_a1i r1 r0
      let delta_token0 := cf_token0 - v_a0o
      if base_is_token0 then delta_token0
      else
        let price0_per_1 : ℚ := if r1 = 0 then 0 else (r0 : ℚ) / (r1 : ℚ)
        if price0_per_1 = 0 then 0
        else roundHalfEven ((delta_token0 : ℚ) / price0_per_1)
    else 0

/-- `fetch_revenue_base_raw` from `update_profit_on_sandwich_attack.py`:
`max(back.amount0_out_raw + back.amount1_out_raw
     - (front.amount0_in_raw + front.amount1_in_raw), 0)`. -/
def fetch_revenue_base_raw (front back : SwapRow) : Int :=
  let front_amount_in_raw := front.amount0_in_raw + front.amount1_in_raw
  let back_amount_out_raw := back.amount0_out_raw + back.amount1_out_raw
  max (back_amount_out_raw - front_amount_in_raw) 0

/-- The per-candidate revenue computation of `_process_window` in
`detect_sandwich_attacks_from_swaps.py` (lines 503-531): the floor of the
matched-portion trading P&L in the base token, computed with Decimal
arithmetic (modelled exactly on `ℚ`). Returns `none` where the source
executes `continue` (direction or positivity check fails). -/
def revenue_base_raw_detect (base_is_token0 : Bool) (front back : SwapRow) :
    Option Int :=
  let ok : Bool :=
    if base_is_token0 then dir_token0_to_token1 front && dir_token1_to_token0 back
    else dir_token1_to_token0 front && dir_token0_to_token1 back
  if !ok then none
  else
    let base_in : ℚ := if base_is_token0 then front.amount0_in_raw else front.amount1_in_raw
    let base_out : ℚ := if base_is_token0 then back.amount0_out_raw else back.amount1_out_raw
    let q_front : ℚ := if base_is_token0 then front.amount1_out_raw else front.amount0_out_raw
    let q_back : ℚ := if base_is_token0 then back.amount1_in_raw else back.amount0_in_raw
    if base_in ≤ 0 ∨ base_out ≤ 0 ∨ q_front ≤ 0 ∨ q_back ≤ 0 then none
    else
      let r_back := base_out / q_back
      let r_front := q_front / base_in
      let pair_q := if q_front ≤ q_back then q_front else q_back
      let base_out_matched := r_back * pair_q
      let base_in_matched := if r_front ≠ 0 then pair_q / r_front else 0
      let pnl_trade_base := base_out_matched - base_in_matched
      some (roundFloor pnl_trade_base)

/-- SQL `LOWER(...)` on an address string. -/
def lowerAddr (a : String) : String := String.mk (a.data.map Char.toLower)

/-- The `actor` column of the detector SQL: `LOWER(t.from_address)`. -/
def actorOf (s : SwapRow) : String := lowerAddr s.tx_from

/-- The strict total-order comparison used by the `pairs0` join:
`s2.block_number > s1.block_number OR (equal AND s2.log_index > s1.log_index)`. -/
def posLt (a b : SwapRow) : Bool :=
  a.block_number < b.block_number ||
  (a.block_number == b.block_number && a.log_index < b.log_index)

/-- The boundary-inclusive comparison used by the `victims` join. -/
def posLe (a b : SwapRow) : Bool :=
  a.block_number < b.block_number ||
  (a.block_number == b.block_number && a.log_index ≤ b.log_index)

/-- The WHERE filter of the CTE `s` in the detector SQL: pool, chain,
block range, and an exact-in directional shape. -/
def inS (pool_id chain_id min_block max_block : Nat) (s : SwapRow) : Bool :=
  s.defi_pool_id == pool_id && s.chain_id == chain_id &&
  decide (min_block ≤ s.block_number) && decide (s.block_number ≤ max_block) &&
  (dir_token0_to_token1 s || dir_token1_to_token0 s)

/-- The join condition of the CTE `pairs0`: same pool and actor, `s2`
strictly after `s1`, block gap bounded, opposite direction, closed round
trip in the stable (base) token. -/
def pairCond (stable_coin_token_id max_block_gap : Nat) (s1 s2 : SwapRow) : Bool :=
  s2.defi_pool_id == s1.defi_pool_id &&
  actorOf s2 == actorOf s1 &&
  posLt s1 s2 &&
  decide ((s2.block_number : Int) - (s1.block_number : Int) ≤ (max_block_gap : Int)) &&
  dirSign s2 == -dirSign s1 &&
  sqlEqOpt s1.sell_token_id s2.buy_token_id &&
  sqlEqOpt s1.sell_token_id (some stable_coin_token_id) &&
  sqlEqOpt s1.buy_token_id s2.sell_token_id

/-- Earlier of two swaps in `(block_number, log_index)` order (first wins
ties, matching `ROW_NUMBER`'s arbitrary-but-fixed tie order). -/
def chooseEarlier (a b : SwapRow) : SwapRow := if posLt b a then b else a

/-- First row of a candidate list in `(block_number, log_index)` order —
the `rn = 1` selection of the CTE `pairs`. -/
def earliestSwap : List SwapRow → Option SwapRow
  | [] => none
  | x :: xs => some (xs.foldl chooseEarlier x)

/-- The back-leg candidates joined to a given front leg `s1`: rows of the
CTE `s` (for the queried window) satisfying the `pairs0` join condition. -/
def backCandidates (swaps : List SwapRow)
    (pool_id chain_id stable max_block_gap min_block max_block : Nat)
    (s1 : SwapRow) : List SwapRow :=
  swaps.filter (fun s2 =>
    inS pool_id chain_id min_block max_block s2 && pairCond stable max_block_gap s1 s2)

/-- The back leg the CTE `pairs` keeps for front leg `s1` (`rn = 1`:
earliest by `(block_number, log_index)`), if any candidate exists. -/
def backOf (swaps : List SwapRow)
    (pool_id chain_id stable max_block_gap min_block max_block : Nat)
    (s1 : SwapRow) : Option SwapRow :=
  earliestSwap (backCandidates swaps pool_id chain_id stable max_block_gap min_block max_block s1)

/-- The join condition of the CTE `victims` against a front/back pair. -/
def victimCond (pool_id : Nat) (front back v : SwapRow) : Bool :=
  v.defi_pool_id == pool_id &&
  posLe front v && posLe v back &&
  actorOf v != actorOf front &&
  dirSign v == dirSign front &&
  sqlEqOpt v.sell_token_id front.sell_token_id &&
  sqlEqOpt v.buy_token_id front.buy_token_id

/-- The victims joined to a given front/back pair: rows of the CTE `s` (for
the queried window) satisfying the `victims` join condition. -/
def victimsFor (swaps : List SwapRow) (pool_id chain_id min_block max_block : Nat)
    (s1 s2 : SwapRow) : List SwapRow :=
  swaps.filter (fun v =>
    inS pool_id chain_id min_block max_block v && victimCond pool_id s1 s2 v)

/-- The triplets contributed by one front leg: none when no back candidate
exists, otherwise one triplet per victim of the chosen pair. -/
def tripletsFor (swaps : List SwapRow)
    (pool_id chain_id stable max_block_gap min_block max_block : Nat)
    (s1 : SwapRow) : List (SwapRow × SwapRow × SwapRow) :=
  match backOf swaps pool_id chain_id stable max_block_gap min_block max_block s1 with
  | none => []
  | some s2 =>
    (victimsFor swaps pool_id chain_id min_block max_block s1 s2).map
      (fun v => (s1, v, s2))

/-- The full candidate-extraction SQL of `detect_and_insert_for_pool_sql`
over an explicit list of swap rows: every `(front, victim, back)` triplet
whose front/back pair is in `pairs` (earliest back per front) and whose
victim satisfies the `victims` join, for the queried block range. -/
def detectedTriplets (swaps : List SwapRow)
    (pool_id chain_id stable max_block_gap min_block max_block : Nat) :
    List (SwapRow × SwapRow × SwapRow) :=
  (swaps.filter (inS pool_id chain_id min_block max_block)).flatMap
    (tripletsFor swaps pool_id chain_id stable max_block_gap min_block max_block)

/-- Pool row projection used by the detector (`DefiPool`). -/
structure DefiPoolRow where
  id : Nat
  chain_id : Nat
  token0_id : Nat
  token1_id : Nat
deriving Repr, DecidableEq

/-- A row of the `rows_to_insert` batch built by `_process_window` (the
columns of `sandwich_attacks` the detector fills). -/
structure InsertRow where
  chain_id : Nat
  front_attack_swap_id : Nat
  victim_swap_id : Nat
  back_attack_swap_id : Nat
  attacker_address : String
  victim_address : String
  base_token_id : Nat
  revenue_base_raw : Int
  gas_fee_wei_attacker : Int
  profit_base_raw : Int
  harm_base_raw : Int
deriving Repr, DecidableEq

/-- The per-candidate body of `_process_window` (lines 485-554): resolve the
base token from the front leg, re-check directions, compute revenue, gas
(`or 0`) and the inline harm, and build the row to insert; `none` where the
source executes `continue`. The BigQuery reserve fetch for the harm
computation is the `fetchReserves` argument (keyed by the front leg). -/
def processCandidate (pool : DefiPoolRow)
    (fetchReserves : SwapRow → Option (Int × Int))
    (front victim back : SwapRow) : Option InsertRow :=
  match front.sell_token_id with
  | none => none
  | some base_token_id =>
    let base_is_token0 := base_token_id == pool.token0_id
    match revenue_base_raw_detect base_is_token0 front back with
    | none => none
    | some revenue =>
      let gas_fee_wei_attacker := (attacker_gas_fee_wei front back).getD 0
      let harm_base_raw :=
        compute_harm_base_raw_detect (fetchReserves front) base_is_token0 victim
      some {
        chain_id := front.chain_id
        front_attack_swap_id := front.id
        victim_swap_id := victim.id
        back_attack_swap_id := back.id
        attacker_address := actorOf front
        victim_address := actorOf victim
        base_token_id := base_token_id
        revenue_base_raw := revenue
        gas_fee_wei_attacker := gas_fee_wei_attacker
        profit_base_raw := revenue
        harm_base_raw := harm_base_raw }

/-- `_process_window`: run the candidate SQL over the expanded window,
keep candidates whose front block lies in the core window, and build the
insert rows. -/
def processWindowRows (swaps : List SwapRow) (pool : DefiPoolRow)
    (stable max_block_gap : Nat) (fetchReserves : SwapRow → Option (Int × Int))
    (win_min win_max core_min core_max : Nat) : List InsertRow :=
  ((detectedTriplets swaps pool.id pool.chain_id stable max_block_gap win_min win_max).filter
    (fun t => decide (core_min ≤ t.1.block_number) && decide (t.1.block_number ≤ core_max))).filterMap
    (fun t => processCandidate pool fetchReserves t.1 t.2.1 t.2.2)

/-- `BLOCK_BATCH` from `detect_sandwich_attacks_from_swaps.py`. -/
def BLOCK_BATCH : Nat := 100000

/-- The window loop of `detect_and_insert_for_pool_sql` (lines 571-592),
restricted to the triplets it detects (each window keeps the triplets whose
front block lies in the core chunk `[cur, cur + BLOCK_BATCH - 1]`, querying
the window expanded by `max_block_gap` on both ends, clamped to the overall
range). -/
def detectWindowedFrom (swaps : List SwapRow)
    (pool_id chain_id stable max_block_gap min_block end_block : Nat)
    (cur : Nat) : List (SwapRow × SwapRow × SwapRow) :=
  if _h : cur ≤ end_block then
    let core_to := min (cur + BLOCK_BATCH - 1) end_block
    let win_min := max (cur - max_block_gap) min_block
    let win_max := min (core_to + max_block_gap) end_block
    ((detectedTriplets swaps pool_id chain_id stable max_block_gap win_min win_max).filter
      (fun t => decide (cur ≤ t.1.block_number) && decide (t.1.block_number ≤ core_to)))
      ++ detectWindowedFrom swaps pool_id chain_id stable max_block_gap min_block end_block (core_to + 1)
  else []
termination_by end_block + 1 - cur
decreasing_by
  simp only [BLOCK_BATCH]
  omega

/-- The windowed detection pass over `[min_block, max_block]`. -/
def detectWindowed (swaps : List SwapRow)
    (pool_id chain_id stable max_block_gap min_block max_block : Nat) :
    List (SwapRow × SwapRow × SwapRow) :=
  detectWindowedFrom swaps pool_id chain_id stable max_block_gap min_block max_block min_block

/-- Uniswap V2 Pair Sync event topic (constant `TOPIC_SYNC_V2`). -/
def TOPIC_SYNC_V2 : String :=
  "0x1c411e9a96e071241c2f21f7726b17ae89e3cab4c78be50e062b03a9fffbbad1"

/-- A decoded log row as returned by the BigQuery `logs` table queries. -/
structure SyncLogRow where
  address : String
  topic0 : String
  block_number : Nat
  transaction_index : Nat
  log_index : Nat
  tx_hash : String
  data : List Nat
deriving Repr, DecidableEq

/-- Big-endian `int.from_bytes`. -/
def fromBytesBE (bs : List Nat) : Nat := bs.foldl (fun acc b => acc * 256 + b) 0

/-- The reserve decoding shared by both reserve fetchers: V2 `Sync` data is
`(uint112 reserve0, uint112 reserve1)` left-padded to 32 bytes each;
rows shorter than 64 bytes yield `None`. -/
def decodeSyncReserves (data : List Nat) : Option (Int × Int) :=
  if data.length < 64 then none
  else some ((fromBytesBE (data.take 32) : Int), (fromBytesBE ((data.drop 32).take 32) : Int))

/-- The WHERE filter of the sync-event query in
`update_harm_on_sandwich_attack.py` (`_get_reserves_before_a1_placeholder`):
the pool's Sync events strictly before `(blk, txi, logi)`, excluding any
event in the reference swap's own transaction. -/
def syncMatchUpdate (pool : String) (blk txi logi : Nat) (txh : String)
    (l : SyncLogRow) : Bool :=
  lowerAddr l.address == pool &&
  l.topic0 == TOPIC_SYNC_V2 &&
  (l.block_number < blk ||
   (l.block_number == blk && l.transaction_index < txi) ||
   (l.block_number == blk && l.transaction_index == txi && l.log_index < logi)) &&
  !(l.block_number == blk && l.tx_hash == txh)

/-- The WHERE filter of the sync-event query in
`detect_sandwich_attacks_from_swaps.py` (`_get_reserves_before_a1_placeholder`):
the pool's Sync events strictly before `(blk, logi)` — note it neither
compares transaction indexes nor excludes the reference's own transaction. -/
def syncMatchDetect (pool : String) (blk logi : Nat) (l : SyncLogRow) : Bool :=
  lowerAddr l.address == pool &&
  l.topic0 == TOPIC_SYNC_V2 &&
  (l.block_number < blk || (l.block_number == blk && l.log_index < logi))

/-- Strict lexicographic order on `(block_number, transaction_index,
log_index)` — the `ORDER BY … DESC` key of the update-pass query. -/
def pos3Lt (a b : SyncLogRow) : Bool :=
  a.block_number < b.block_number ||
  (a.block_number == b.block_number && a.transaction_index < b.transaction_index) ||
  (a.block_number == b.block_number && a.transaction_index == b.transaction_index &&
   a.log_index < b.log_index)

/-- Strict lexicographic order on `(block_number, log_index)` — the
`ORDER BY … DESC` key of the detect-pass query. -/
def pos2Lt (a b : SyncLogRow) : Bool :=
  a.block_number < b.block_number ||
  (a.block_number == b.block_number && a.log_index < b.log_index)

/-- Later of two log rows under an order `lt` (first wins ties). -/
def chooseLater (lt : SyncLogRow → SyncLogRow → Bool) (a b : SyncLogRow) : SyncLogRow :=
  if lt a b then b else a

/-- `ORDER BY … DESC LIMIT 1` over a candidate list under order `lt`. -/
def latestSync (lt : SyncLogRow → SyncLogRow → Bool) :
    List SyncLogRow → Option SyncLogRow
  | [] => none
  | x :: xs => some (xs.foldl (chooseLater lt) x)

/-- The row selected by the update-pass reserve query. -/
def selectSyncUpdate (logs : List SyncLogRow) (pool : String)
    (blk txi logi : Nat) (txh : String) : Option SyncLogRow :=
  latestSync pos3Lt (logs.filter (syncMatchUpdate pool blk txi logi txh))

/-- The row selected by the detect-pass reserve query. -/
def selectSyncDetect (logs : List SyncLogRow) (pool : String)
    (blk logi : Nat) : Option SyncLogRow :=
  latestSync pos2Lt (logs.filter (syncMatchDetect pool blk logi))

/-- `_get_reserves_before_a1_placeholder` of `update_harm_on_sandwich_attack.py`
over an explicit log list: select the latest prior non-same-transaction Sync
event and decode its reserves; `none` models every unavailable outcome
(no prior Sync, short data, or the query failing). -/
def get_reserves_before_a1_update (logs : List SyncLogRow) (pool : String)
    (blk txi logi : Nat) (txh : String) : Option (Int × Int) :=
  match selectSyncUpdate logs pool blk txi logi txh with
  | none => none
  | some l => decodeSyncReserves l.data

/-- `_get_reserves_before_a1_placeholder` of
`detect_sandwich_attacks_from_swaps.py` over an explicit log list. -/
def get_reserves_before_a1_detect (logs : List SyncLogRow) (pool : String)
    (blk logi : Nat) : Option (Int × Int) :=
  match selectSyncDetect logs pool blk logi with
  | none => none
  | some l => decodeSyncReserves l.data

/-- The `uq_sandwich_triplet` unique key of `sandwich_attacks`
(`app/models/sandwich_attack.py`). -/
def tripletKey (r : InsertRow) : Nat × Nat × Nat :=
  (r.front_attack_swap_id, r.victim_swap_id, r.back_attack_swap_id)

/-- Modelled from the spec: the persistence layer (PostgreSQL) is outside
`src/`; this models the semantics of the statement
`pg_insert(SandwichAttack).values(chunk).on_conflict_do_nothing(constraint="uq_sandwich_triplet")`
issued by `_process_window` — rows are inserted in order, and a row whose
`(front_attack_swap_id, victim_swap_id, back_attack_swap_id)` key is already
present is silently skipped. -/
def insertOnConflictDoNothing (store rows : List InsertRow) : List InsertRow :=
  rows.foldl
    (fun st r => if tripletKey r ∈ st.map tripletKey then st else st ++ [r]) store

/-- Pool `P` of the spec's test scenario: token0 (id 10) is the USD-stable
base token, token1 (id 20) is `TOK`. -/
def poolP : DefiPoolRow := ⟨1, 1, 10, 20⟩

/-- Scenario swap `S1`: actor `0xa` sells 1000 base for 10 TOK at block 100. -/
def swapS1 : SwapRow :=
  ⟨101, 1, 1, 1000, 0, 0, 10, some 10, some 20, 100, 1, "0xa", none, none, none⟩

/-- Scenario swap `S2` (the victim): actor `0xb` sells 100 base for 1 TOK at
block 100, log index after `S1`. -/
def swapS2 : SwapRow :=
  ⟨102, 1, 1, 100, 0, 0, 1, some 10, some 20, 100, 2, "0xb", none, none, none⟩

/-- Scenario swap `S3`: actor `0xa` sells 10 TOK for 1005 base at block 101. -/
def swapS3 : SwapRow :=
  ⟨103, 1, 1, 0, 10, 1005, 0, some 20, some 10, 101, 1, "0xa", none, none, none⟩

/-- Variant of `S3` where the back leg only recovers 995 base (the attacker
lost money on the round trip). -/
def swapS3neg : SwapRow :=
  ⟨103, 1, 1, 0, 10, 995, 0, some 20, some 10, 101, 1, "0xa", none, none, none⟩

/-- The spec's three-swap scenario. -/
def scenarioSwaps : List SwapRow := [swapS1, swapS2, swapS3]

/-- The scenario with the losing back leg. -/
def scenarioSwapsNeg : List SwapRow := [swapS1, swapS2, swapS3neg]

/-- Reserve fetcher modelling an unreachable BigQuery source. -/
def noReserves : SwapRow → Option (Int × Int) := fun _ => none

/-- Victim used against claim C2: put in 1000 of token0, observed 1000 of
token1 out (more than the 996 the no-attack counterfactual pays). -/
def victimC2 : SwapRow :=
  ⟨201, 1, 1, 1000, 0, 0, 1000, some 10, some 20, 100, 2, "0xb", none, none, none⟩

/-- Victim used against claim C9: put in 10 of token0, observed 16 of token1
out; with reserves (1000, 2000) the token-unit delta is 3 and the base
conversion of 3/2 rounds half-even to 2 where flooring gives 1. -/
def victimC9 : SwapRow :=
  ⟨202, 1, 1, 10, 0, 0, 16, some 10, some 20, 100, 2, "0xb", none, none, none⟩

/-- Front attacker leg with complete gas data (effective price 10 wei,
21000 gas). -/
def frontGasRow : SwapRow :=
  ⟨301, 1, 1, 1000, 0, 0, 10, some 10, some 20, 100, 1, "0xa", some 21000, some 10, none⟩

/-- Back attacker leg with `gas_used` missing (both price fields present). -/
def backGasRow : SwapRow :=
  ⟨302, 1, 1, 0, 10, 1005, 0, some 20, some 10, 101, 1, "0xa", none, some 5, some 7⟩

/-- The spec's direction-classification example: `amount0_in=100,
amount1_out=50, amount1_in=0, amount0_out=0`. -/
def swapDirExample : SwapRow :=
  ⟨401, 1, 1, 100, 0, 0, 50, some 10, some 20, 100, 1, "0xa", none, none, none⟩

/-- A 32-byte big-endian word holding a small value. -/
def bytes32 (v : Nat) : List Nat := List.replicate 31 0 ++ [v]

/-- A Sync event inside the reference swap's own transaction (block 10,
transaction index 3, log index 4, tx hash `0xt`), reserves (5, 5). -/
def syncSameTx : SyncLogRow :=
  ⟨"0xp", TOPIC_SYNC_V2, 10, 3, 4, "0xt", bytes32 5 ++ bytes32 5⟩

/-- A Sync event in an earlier block (block 9), reserves (7, 7). -/
def syncPrior : SyncLogRow :=
  ⟨"0xp", TOPIC_SYNC_V2, 9, 0, 0, "0xu", bytes32 7 ++ bytes32 7⟩

/-- Log list containing both Sync events. -/
def syncLogs : List SyncLogRow := [syncSameTx, syncPrior]

/-- A concrete detected-triplet row used to exercise the idempotent insert. -/
def insertRowA : InsertRow := ⟨1, 101, 102, 103, "0xa", "0xb", 10, 5, 0, 5, 0⟩

/-- Floor of a ratio of integers cast to `ℚ` is integer floor division. -/
theorem floor_ratCast_div (a b : Int) (hb : 0 < b) :
    ⌊((a : ℚ) / (b : ℚ))⌋ = a.fdiv b := by
  have h1 : ((b.toNat : ℕ) : ℚ) = ((b : ℤ) : ℚ) := by
    norm_cast
    omega
  rw [← h1, Rat.floor_intCast_div_natCast, Int.fdiv_eq_ediv _ (by omega)]
  congr 1
  omega

/-- Bounds of the constant-product quotient shared by all three fee
variants: with effective input `k ≥ 0`, fee denominator `F > 0` and positive
reserves, `(k * rout) // (rin * F + k)` lies in `[0, rout)`. -/
theorem amm_out_bound (k F rin rout : Int) (hk : 0 ≤ k) (hF : 0 < F)
    (hrin : 0 < rin) (hrout : 0 < rout) :
    0 ≤ Int.fdiv (k * rout) (rin * F + k) ∧
    Int.fdiv (k * rout) (rin * F + k) < rout := by
  have hden : 0 < rin * F + k := by nlinarith
  rw [Int.fdiv_eq_ediv _ hden.le]
  constructor
  · exact Int.ediv_nonneg (by positivity) hden.le
  · rw [Int.ediv_lt_iff_lt_mul hden]
    nlinarith [mul_pos (mul_pos hrout hrin) hF]

/-- C3: the swap-output function computes the floor of the fee-adjusted
constant-product formula in exact integer arithmetic, returns 0 on any
non-positive input, and at `(1000, 1_000_000, 1_000_000, fee_bps = 30)` it
equals the literal floor-division integer
`997000*1000000 // (1000000*1000 + 997000)` (= 996). -/
theorem claim3_swap_output_exact :
    (∀ a rin rout bps : Int, 0 < a → 0 < rin → 0 < rout → 0 ≤ bps → bps ≤ 10000 →
      get_amount_out_with_fee a rin rout bps =
        ⌊((a : ℚ) * (1 - (bps : ℚ) / 10000) * (rout : ℚ)) /
          ((rin : ℚ) + (a : ℚ) * (1 - (bps : ℚ) / 10000))⌋) ∧
    (∀ a rin rout bps : Int, a ≤ 0 ∨ rin ≤ 0 ∨ rout ≤ 0 →
      get_amount_out_with_fee a rin rout bps = 0) ∧
    get_amount_out_with_fee 1000 1000000 1000000 30 =
      Int.fdiv (997000 * 1000000) (1000000 * 1000 + 997000) := by
  refine ⟨?_, ?_, by decide⟩
  · intro a rin rout bps ha hrin hrout hb1 hb2
    have hcond : ¬(a ≤ 0 ∨ rin ≤ 0 ∨ rout ≤ 0) := by omega
    have hden : (0 : ℤ) < rin * 10000 + a * (10000 - bps) := by nlinarith
    simp only [get_amount_out_with_fee, if_neg hcond]
    rw [if_neg (by omega : ¬(rin * 10000 + a * (10000 - bps) = 0))]
    rw [← floor_ratCast_div (a * (10000 - bps) * rout) (rin * 10000 + a * (10000 - bps)) hden]
    congr 1
    have hDQ : (0 : ℚ) < ((rin * 10000 + a * (10000 - bps) : ℤ) : ℚ) := by
      exact_mod_cast hden
    have h1 : ((rin : ℚ) + (a : ℚ) * (1 - (bps : ℚ) / 10000)) =
        ((rin * 10000 + a * (10000 - bps) : ℤ) : ℚ) / 10000 := by
      push_cast
      ring
    have hD1 : (0 : ℚ) < (rin : ℚ) + (a : ℚ) * (1 - (bps : ℚ) / 10000) := by
      rw [h1]
      positivity
    rw [div_eq_div_iff hDQ.ne' hD1.ne']
    push_cast
    ring
  · intro a rin rout bps h
    simp only [get_amount_out_with_fee, if_pos h]

/-- Witness for C3 at concrete inputs. -/
theorem claim3_swap_output_exact_witness :
    get_amount_out_with_fee 1000 1000000 1000000 30 =
      ⌊((1000 : ℚ) * (1 - (30 : ℚ) / 10000) * (1000000 : ℚ)) /
        ((1000000 : ℚ) + (1000 : ℚ) * (1 - (30 : ℚ) / 10000))⌋ ∧
    get_amount_out_with_fee 0 5 5 30 = 0 :=
  ⟨claim3_swap_output_exact.1 1000 1000000 1000000 30 (by norm_num) (by norm_num)
      (by norm_num) (by norm_num) (by norm_num),
   claim3_swap_output_exact.2.1 0 5 5 30 (Or.inl (by norm_num))⟩

/-- C10: for positive reserves every fee variant of the constant-product
output is non-negative and strictly below the output reserve, for every
(arbitrary-sign) input amount. -/
theorem claim10_output_bounds :
    ∀ amount_in reserve_in reserve_out : Int, 0 < reserve_in → 0 < reserve_out →
      (0 ≤ get_amount_out amount_in reserve_in reserve_out ∧
        get_amount_out amount_in reserve_in reserve_out < reserve_out) ∧
      (∀ fee_bps : Int, 0 ≤ fee_bps → fee_bps ≤ 10000 →
        0 ≤ get_amount_out_with_fee amount_in reserve_in reserve_out fee_bps ∧
        get_amount_out_with_fee amount_in reserve_in reserve_out fee_bps < reserve_out) ∧
      (0 ≤ swap_out_v2 reserve_in reserve_out amount_in ∧
        swap_out_v2 reserve_in reserve_out amount_in < reserve_out) := by
  intro a rin rout hrin hrout
  refine ⟨?_, ?_, ?_⟩
  · by_cases hg : a ≤ 0 ∨ rin ≤ 0 ∨ rout ≤ 0
    · simp only [get_amount_out, if_pos hg]
      exact ⟨le_refl 0, hrout⟩
    · have ha : 0 < a := by omega
      simp only [get_amount_out, if_neg hg]
      have hden : ¬(rin * 1000 + a * 997 = 0) := by nlinarith
      rw [if_neg hden]
      exact amm_out_bound (a * 997) 1000 rin rout (by positivity) (by norm_num) hrin hrout
  · intro bps hb1 hb2
    by_cases hg : a ≤ 0 ∨ rin ≤ 0 ∨ rout ≤ 0
    · simp only [get_amount_out_with_fee, if_pos hg]
      exact ⟨le_refl 0, hrout⟩
    · have ha : 0 < a := by omega
      simp only [get_amount_out_with_fee, if_neg hg]
      have hk : 0 ≤ a * (10000 - bps) := mul_nonneg ha.le (by omega)
      have hden : ¬(rin * 10000 + a * (10000 - bps) = 0) := by nlinarith
      rw [if_neg hden]
      exact amm_out_bound (a * (10000 - bps)) 10000 rin rout hk (by norm_num) hrin hrout
  · by_cases hg : a ≤ 0 ∨ rin ≤ 0 ∨ rout ≤ 0
    · simp only [swap_out_v2, if_pos hg]
      exact ⟨le_refl 0, hrout⟩
    · have ha : 0 < a := by omega
      simp only [swap_out_v2, if_neg hg]
      exact amm_out_bound (a * (1000000 - 3000)) 1000000 rin rout (by positivity)
        (by norm_num) hrin hrout

/-- Witness for C10 at concrete inputs. -/
theorem claim10_output_bounds_witness :
    (0 ≤ get_amount_out 1000 1000000 1000000 ∧
      get_amount_out 1000 1000000 1000000 < 1000000) ∧
    (0 ≤ get_amount_out_with_fee 1000 1000000 1000000 30 ∧
      get_amount_out_with_fee 1000 1000000 1000000 30 < 1000000) ∧
    (0 ≤ swap_out_v2 1000000 1000000 1000 ∧
      swap_out_v2 1000000 1000000 1000 < 1000000) :=
  have h := claim10_output_bounds 1000 1000000 1000000 (by norm_num) (by norm_num)
  ⟨h.1, h.2.1 30 (by norm_num) (by norm_num), h.2.2⟩

/-- The spot-ratio conversion of the update-harm pass is non-negative for
non-negative reserves. -/
theorem to_base_from_delta_out_nonneg (r0 r1 : Int) (b : Bool) (d : Int)
    (o : Bool) (h0 : 0 ≤ r0) (h1 : 0 ≤ r1) :
    0 ≤ to_base_from_delta_out r0 r1 b d o := by
  have hm1 : (0 : Int) ≤ max r1 1 := le_trans zero_le_one (le_max_right r1 1)
  have hm0 : (0 : Int) ≤ max r0 1 := le_trans zero_le_one (le_max_right r0 1)
  unfold to_base_from_delta_out
  split
  · exact le_refl 0
  · rename_i hd
    split
    · split
      · omega
      · exact Int.fdiv_nonneg (by nlinarith) hm1
    · split
      · omega
      · exact Int.fdiv_nonneg (by nlinarith) hm0

/-- C2 (amended): the harm computed by the valuation pass
(`update_harm_on_sandwich_attack.py`) is always non-negative, and it is
exactly 0 whenever the no-attack counterfactual output does not exceed the
victim's actual observed output (and also whenever the reserve snapshot is
unavailable). -/
theorem claim2_harm_clamped_update :
    ∀ (b : Bool) (v0i v1i v0o v1o r0 r1 : Int), 0 ≤ r0 → 0 ≤ r1 →
      compute_harm_base_raw_update none b v0i v1i v0o v1o = 0 ∧
      0 ≤ compute_harm_base_raw_update (some (r0, r1)) b v0i v1i v0o v1o ∧
      (swap_out_v2 r0 r1 v0i ≤ v1o →
        compute_harm_base_raw_update (some (r0, r1)) true v0i v1i v0o v1o = 0) ∧
      (swap_out_v2 r1 r0 v1i ≤ v0o →
        compute_harm_base_raw_update (some (r0, r1)) false v0i v1i v0o v1o = 0) := by
  intro b v0i v1i v0o v1o r0 r1 h0 h1
  refine ⟨rfl, ?_, ?_, ?_⟩
  · cases b <;> simp only [compute_harm_base_raw_update] <;>
      exact to_base_from_delta_out_nonneg _ _ _ _ _ h0 h1
  · intro hle
    simp only [compute_harm_base_raw_update, if_pos rfl]
    have hz : max (swap_out_v2 r0 r1 v0i - v1o) 0 = 0 := by omega
    rw [hz]
    simp [to_base_from_delta_out]
  · intro hle
    simp only [compute_harm_base_raw_update]
    have hz : max (swap_out_v2 r1 r0 v1i - v0o) 0 = 0 := by omega
    rw [if_neg (by simp), hz]
    simp [to_base_from_delta_out]

/-- Witness for C2 (amended) at concrete inputs. -/
theorem claim2_harm_clamped_update_witness :
    0 ≤ compute_harm_base_raw_update (some (1000000, 1000000)) true 1000 0 0 1000 ∧
    compute_harm_base_raw_update (some (1000000, 1000000)) true 1000 0 0 1000 = 0 :=
  have h := claim2_harm_clamped_update true 1000 0 0 1000 1000000 1000000
    (by norm_num) (by norm_num)
  ⟨h.2.1, h.2.2.1 (by decide)⟩

/-- Counterexample to C2 as stated: the detection pass's inline harm
computation does not clamp. With pre-attack reserves (10^6, 10^6) and a
victim who paid in 1000 of the base token and observed 1000 of the other
token out, the no-attack counterfactual output (996) is below the actual
output, yet the recorded harm is −4, not 0. -/
theorem claim2_counterexample :
    compute_harm_base_raw_detect (some (1000000, 1000000)) true victimC2 = -4 ∧
    get_amount_out victimC2.amount0_in_raw 1000000 1000000 ≤ victimC2.amount1_out_raw ∧
    compute_harm_base_raw_detect (some (1000000, 1000000)) true victimC2 < 0 := by
  have hcf : get_amount_out 1000 1000000 1000000 = 996 := by decide
  have h : compute_harm_base_raw_detect (some (1000000, 1000000)) true victimC2 = -4 := by
    simp only [compute_harm_base_raw_detect, victimC2]
    norm_num [hcf, roundHalfEven]
  exact ⟨h, by decide, by rw [h]; norm_num⟩

/-- C9 (amended): the update-harm pass's base conversion floors the exact
spot-ratio product toward the raw integer representation (the detection
pass's Decimal conversion instead rounds half-even, see the
counterexample). -/
theorem claim9_conversion_floors :
    (∀ r0 r1 d : Int, 0 ≤ r0 → 0 < r1 →
      to_base_from_delta_out r0 r1 true d false =
        if d ≤ 0 then 0 else ⌊((d * r0 : Int) : ℚ) / ((r1 : Int) : ℚ)⌋) ∧
    (∀ r0 r1 d : Int, 0 < r0 → 0 ≤ r1 →
      to_base_from_delta_out r0 r1 false d true =
        if d ≤ 0 then 0 else ⌊((d * r1 : Int) : ℚ) / ((r0 : Int) : ℚ)⌋) := by
  constructor
  · intro r0 r1 d h0 h1
    by_cases hd : d ≤ 0
    · simp [to_base_from_delta_out, hd]
    · have hm : max r1 1 = r1 := by omega
      rw [if_neg hd, floor_ratCast_div _ _ h1]
      simp [to_base_from_delta_out, hd, hm]
  · intro r0 r1 d h0 h1
    by_cases hd : d ≤ 0
    · simp [to_base_from_delta_out, hd]
    · have hm : max r0 1 = r0 := by omega
      rw [if_neg hd, floor_ratCast_div _ _ h0]
      simp [to_base_from_delta_out, hd, hm]

/-- Witness for C9 (amended) at concrete inputs. -/
theorem claim9_conversion_floors_witness :
    to_base_from_delta_out 1000 2000 true 3 false =
      if (3 : Int) ≤ 0 then 0 else ⌊((3 * 1000 : Int) : ℚ) / ((2000 : Int) : ℚ)⌋ :=
  claim9_conversion_floors.1 1000 2000 3 (by norm_num) (by norm_num)

/-- Counterexample to C9 as stated: the detection pass's conversion of the
victim's token-unit delta into base units rounds half-even, not floor.
With reserves (1000, 2000) and a token-unit delta of 3, the spot conversion
is 3/2: flooring gives 1, but the persisted value is 2. -/
theorem claim9_counterexample :
    compute_harm_base_raw_detect (some (1000, 2000)) true victimC9 = 2 ∧
    ⌊((3 * 1000 : Int) : ℚ) / ((2000 : Int) : ℚ)⌋ = 1 ∧
    (2 : Int) ≠ 1 := by
  have hcf : get_amount_out 10 1000 2000 = 19 := by decide
  refine ⟨?_, ?_, by norm_num⟩
  · simp only [compute_harm_base_raw_detect, victimC9]
    norm_num [hcf, roundHalfEven]
  · rw [floor_ratCast_div _ _ (by norm_num : (0:Int) < 2000)]
    decide

/-- C5 (amended): the attacker gas fee sums `gas_used * gas_price` over the
legs whose gas data is complete, preferring the effective price over the
legacy one; it is `None` exactly when neither leg has complete gas data —
a single leg with complete data yields that leg's partial fee, not `None`. -/
theorem claim5_gas_fee :
    (∀ f b : SwapRow, ∀ guf gpf gub gpb : Int,
      f.gas_used = some guf →
      pickGasPrice f.gas_price_wei_effective f.gas_price_wei_legacy = some gpf →
      b.gas_used = some gub →
      pickGasPrice b.gas_price_wei_effective b.gas_price_wei_legacy = some gpb →
      attacker_gas_fee_wei f b = some (guf * gpf + gub * gpb)) ∧
    (∀ (x : Int) (q : Option Int), pickGasPrice (some x) q = some x) ∧
    (∀ f b : SwapRow, attacker_gas_fee_wei f b = none ↔
      ((f.gas_used = none ∨
        pickGasPrice f.gas_price_wei_effective f.gas_price_wei_legacy = none) ∧
       (b.gas_used = none ∨
        pickGasPrice b.gas_price_wei_effective b.gas_price_wei_legacy = none))) := by
  refine ⟨?_, fun x q => rfl, ?_⟩
  · intro f b guf gpf gub gpb hf hpf hb hpb
    simp [attacker_gas_fee_wei, gasFeeStep, hf, hpf, hb, hpb]
  · intro f b
    rcases hf : f.gas_used with _ | guf <;>
      rcases hb : b.gas_used with _ | gub <;>
        rcases hpf : pickGasPrice f.gas_price_wei_effective f.gas_price_wei_legacy
          with _ | gpf <;>
          rcases hpb : pickGasPrice b.gas_price_wei_effective b.gas_price_wei_legacy
            with _ | gpb <;>
            simp [attacker_gas_fee_wei, gasFeeStep, hf, hb, hpf, hpb]

/-- Witness for C5 (amended) at concrete legs with complete data. -/
theorem claim5_gas_fee_witness :
    attacker_gas_fee_wei frontGasRow frontGasRow = some (21000 * 10 + 21000 * 10) :=
  claim5_gas_fee.1 frontGasRow frontGasRow 21000 10 21000 10 rfl rfl rfl rfl

/-- Counterexample to C5 as stated: with complete gas data on the front leg
but `gas_used` missing on the back leg, the computation returns the front
leg's fee (210000), not the distinguished "unknown" result. -/
theorem claim5_counterexample :
    attacker_gas_fee_wei frontGasRow backGasRow = some 210000 ∧
    backGasRow.gas_used = none ∧
    attacker_gas_fee_wei frontGasRow backGasRow ≠ none := by
  refine ⟨by decide, by decide, by decide⟩

/-- A fold of `chooseEarlier` stays inside the candidate set. -/
theorem foldl_chooseEarlier_mem (xs : List SwapRow) (a : SwapRow) :
    xs.foldl chooseEarlier a ∈ a :: xs := by
  induction xs generalizing a with
  | nil => simp
  | cons x t ih =>
    have h := ih (chooseEarlier a x)
    have hc : chooseEarlier a x = a ∨ chooseEarlier a x = x := by
      unfold chooseEarlier
      split <;> simp
    simp only [List.foldl_cons]
    rcases List.mem_cons.1 h with h | h
    · rcases hc with hc | hc <;> rw [h, hc] <;> simp
    · simp [h]

/-- The `rn = 1` selection returns an element of the candidate list. -/
theorem earliestSwap_mem {l : List SwapRow} {x : SwapRow}
    (h : earliestSwap l = some x) : x ∈ l := by
  cases l with
  | nil => simp [earliestSwap] at h
  | cons a t =>
    simp only [earliestSwap, Option.some.injEq] at h
    rw [← h]
    exact foldl_chooseEarlier_mem t a

/-- Rows passing the CTE `s` filter have a definite direction. -/
theorem inS_dirSign_ne_zero {p c m M : Nat} {s : SwapRow}
    (h : inS p c m M s = true) : dirSign s ≠ 0 := by
  have hd : dir_token0_to_token1 s = true ∨ dir_token1_to_token0 s = true := by
    simp only [inS, Bool.and_eq_true, Bool.or_eq_true] at h
    exact h.2
  by_cases h0 : dir_token0_to_token1 s = true
  · simp [dirSign, h0]
  · have h1 : dir_token1_to_token0 s = true := by tauto
    simp [dirSign, h0, h1]

/-- The back leg chosen by `pairs` is itself a row of `s` and satisfies the
pair join condition. -/
theorem backOf_spec {swaps : List SwapRow} {pool chain stable gap minB maxB : Nat}
    {s1 b : SwapRow}
    (h : backOf swaps pool chain stable gap minB maxB s1 = some b) :
    b ∈ swaps ∧ inS pool chain minB maxB b = true ∧ pairCond stable gap s1 b = true := by
  unfold backOf at h
  have hb := earliestSwap_mem h
  unfold backCandidates at hb
  have hmem := List.mem_filter.1 hb
  have hcond := hmem.2
  simp only [Bool.and_eq_true] at hcond
  exact ⟨hmem.1, hcond.1, hcond.2⟩

/-- Structure of membership in the detected-triplet list: the front and
victim are rows of `s`, the victim satisfies the victim join, and the back
leg is the chosen (`rn = 1`) back for the front. -/
theorem mem_detectedTriplets {swaps : List SwapRow} {pool chain stable gap minB maxB : Nat}
    {f v b : SwapRow}
    (h : (f, v, b) ∈ detectedTriplets swaps pool chain stable gap minB maxB) :
    inS pool chain minB maxB f = true ∧
    inS pool chain minB maxB v = true ∧
    victimCond pool f b v = true ∧
    backOf swaps pool chain stable gap minB maxB f = some b := by
  unfold detectedTriplets at h
  rw [List.mem_flatMap] at h
  obtain ⟨s1, hs1, hmem⟩ := h
  unfold tripletsFor at hmem
  rcases hback : backOf swaps pool chain stable gap minB maxB s1 with _ | s2
  · rw [hback] at hmem
    simp at hmem
  · rw [hback] at hmem
    rw [List.mem_map] at hmem
    obtain ⟨v2, hv2, heq⟩ := hmem
    cases heq
    have hfil := List.mem_filter.1 hs1
    unfold victimsFor at hv2
    have hvfil := List.mem_filter.1 hv2
    simp only [Bool.and_eq_true] at hvfil
    exact ⟨hfil.2, hvfil.2.1, hvfil.2.2, hback⟩

/-- C8: the two directional classifications are mutually exclusive, the
spec's example row classifies as token0→token1, a swap with two non-zero
"in" amounts is ambiguous (`dir_sign = 0`), and every leg of every detected
triplet has a definite (non-ambiguous) direction — so an ambiguous swap
participates in no triplet. -/
theorem claim8_direction_classification :
    (∀ s : SwapRow, ¬(dir_token0_to_token1 s = true ∧ dir_token1_to_token0 s = true)) ∧
    dir_token0_to_token1 swapDirExample = true ∧
    (∀ s : SwapRow, 0 < s.amount0_in_raw → 0 < s.amount1_in_raw → dirSign s = 0) ∧
    (∀ (swaps : List SwapRow) (pool chain stable gap minB maxB : Nat) (f v b : SwapRow),
      (f, v, b) ∈ detectedTriplets swaps pool chain stable gap minB maxB →
      dirSign f ≠ 0 ∧ dirSign v ≠ 0 ∧ dirSign b ≠ 0) := by
  refine ⟨?_, by decide, ?_, ?_⟩
  · intro s ⟨h1, h2⟩
    simp only [dir_token0_to_token1, dir_token1_to_token0, Bool.and_eq_true,
      decide_eq_true_eq, beq_iff_eq] at h1 h2
    omega
  · intro s h1 h2
    have hd0 : dir_token0_to_token1 s ≠ true := by
      intro hc
      simp only [dir_token0_to_token1, Bool.and_eq_true, decide_eq_true_eq,
        beq_iff_eq] at hc
      omega
    have hd1 : dir_token1_to_token0 s ≠ true := by
      intro hc
      simp only [dir_token1_to_token0, Bool.and_eq_true, decide_eq_true_eq,
        beq_iff_eq] at hc
      omega
    simp [dirSign, hd0, hd1]
  · intro swaps pool chain stable gap minB maxB f v b h
    obtain ⟨hf, hv, hvc, hback⟩ := mem_detectedTriplets h
    obtain ⟨_, hbS, _⟩ := backOf_spec hback
    exact ⟨inS_dirSign_ne_zero hf, inS_dirSign_ne_zero hv, inS_dirSign_ne_zero hbS⟩

/-- Witness for C8 at a concrete ambiguous swap (two non-zero "in" fields). -/
theorem claim8_direction_classification_witness :
    dirSign ⟨501, 1, 1, 100, 7, 0, 50, none, none, 100, 3, "0xc", none, none, none⟩ = 0 :=
  claim8_direction_classification.2.2.1 _ (by decide) (by decide)

/-- The detection pass's revenue for the scenario pair (front sells 1000
base for 10 TOK, back sells 10 TOK for 1005 base) is 5. -/
theorem rev_scenario : revenue_base_raw_detect true swapS1 swapS3 = some 5 := by
  simp only [revenue_base_raw_detect, swapS1, swapS3, dir_token0_to_token1,
    dir_token1_to_token0]
  norm_num [roundFloor]

/-- With the losing back leg (back recovers only 995 base) the detection
pass's revenue is −5. -/
theorem rev_scenarioNeg : revenue_base_raw_detect true swapS1 swapS3neg = some (-5) := by
  simp only [revenue_base_raw_detect, swapS1, swapS3neg, dir_token0_to_token1,
    dir_token1_to_token0]
  norm_num [roundFloor]

/-- Processing the scenario candidate builds the expected insert row. -/
theorem pc_scenario :
    processCandidate poolP noReserves swapS1 swapS2 swapS3 = some insertRowA := by
  have hsell : swapS1.sell_token_id = some 10 := rfl
  have hgas : attacker_gas_fee_wei swapS1 swapS3 = none := by decide
  have hharm : compute_harm_base_raw_detect (noReserves swapS1) true swapS2 = 0 := rfl
  simp only [processCandidate, hsell, poolP, beq_self_eq_true, rev_scenario, hgas, hharm]
  decide

/-- Processing the losing-round-trip candidate builds a row whose revenue
and profit are −5. -/
theorem pc_scenarioNeg :
    processCandidate poolP noReserves swapS1 swapS2 swapS3neg =
      some ⟨1, 101, 102, 103, "0xa", "0xb", 10, -5, 0, -5, 0⟩ := by
  have hsell : swapS1.sell_token_id = some 10 := rfl
  have hgas : attacker_gas_fee_wei swapS1 swapS3neg = none := by decide
  have hharm : compute_harm_base_raw_detect (noReserves swapS1) true swapS2 = 0 := rfl
  simp only [processCandidate, hsell, poolP, beq_self_eq_true, rev_scenarioNeg, hgas, hharm]
  decide

/-- C4 (amended): the update-profit pass's revenue is `max(0, back total out
− front total in)` (hence never negative), which for a directional
front/back pair is `max(0, back base out − front base in)`; the detection
pass on the spec's three-swap scenario yields exactly one triplet, persisted
with `revenue_base_raw = 5` (the detection pass itself records the floor of
the matched-portion P&L, which the counterexample shows can be negative). -/
theorem claim4_revenue_roundtrip :
    (∀ f b : SwapRow,
      0 ≤ fetch_revenue_base_raw f b ∧
      fetch_revenue_base_raw f b =
        max (b.amount0_out_raw + b.amount1_out_raw -
          (f.amount0_in_raw + f.amount1_in_raw)) 0) ∧
    (∀ f b : SwapRow, dir_token0_to_token1 f = true → dir_token1_to_token0 b = true →
      fetch_revenue_base_raw f b = max (b.amount0_out_raw - f.amount0_in_raw) 0) ∧
    processWindowRows scenarioSwaps poolP 10 2 noReserves 0 200 0 200 = [insertRowA] ∧
    insertRowA.revenue_base_raw = 5 ∧
    fetch_revenue_base_raw swapS1 swapS3 = 5 := by
  refine ⟨?_, ?_, ?_, by decide, by decide⟩
  · intro f b
    exact ⟨le_max_right _ 0, rfl⟩
  · intro f b hf hb
    simp only [dir_token0_to_token1, Bool.and_eq_true, decide_eq_true_eq,
      beq_iff_eq] at hf
    simp only [dir_token1_to_token0, Bool.and_eq_true, decide_eq_true_eq,
      beq_iff_eq] at hb
    simp only [fetch_revenue_base_raw]
    omega
  · have hfil : ((detectedTriplets scenarioSwaps poolP.id poolP.chain_id 10 2 0 200).filter
        (fun t => decide (0 ≤ t.1.block_number) && decide (t.1.block_number ≤ 200)))
        = [(swapS1, swapS2, swapS3)] := by decide
    simp only [processWindowRows, hfil, List.filterMap_cons, List.filterMap_nil]
    simp [pc_scenario]

/-- Witness for C4 (amended) at the scenario legs. -/
theorem claim4_revenue_roundtrip_witness :
    fetch_revenue_base_raw swapS1 swapS3 =
      max (swapS3.amount0_out_raw - swapS1.amount0_in_raw) 0 :=
  claim4_revenue_roundtrip.2.1 swapS1 swapS3 (by decide) (by decide)

/-- Counterexample to C4 as stated: with the same scenario but a back leg
recovering only 995 base, the detector persists the triplet with
`revenue_base_raw = −5`, which is negative and differs from
`max(0, back out − front in) = 0`. -/
theorem claim4_counterexample :
    processWindowRows scenarioSwapsNeg poolP 10 2 noReserves 0 200 0 200 =
      [⟨1, 101, 102, 103, "0xa", "0xb", 10, -5, 0, -5, 0⟩] ∧
    max (swapS3neg.amount0_out_raw + swapS3neg.amount1_out_raw -
      (swapS1.amount0_in_raw + swapS1.amount1_in_raw)) 0 = 0 ∧
    (-5 : Int) < 0 := by
  refine ⟨?_, by decide, by decide⟩
  have hfil : ((detectedTriplets scenarioSwapsNeg poolP.id poolP.chain_id 10 2 0 200).filter
      (fun t => decide (0 ≤ t.1.block_number) && decide (t.1.block_number ≤ 200)))
      = [(swapS1, swapS2, swapS3neg)] := by decide
  simp only [processWindowRows, hfil, List.filterMap_cons, List.filterMap_nil]
  simp [pc_scenarioNeg]

/-- Propositional form of the `(block, transaction_index, log_index)`
ordering. -/
theorem pos3Lt_iff {a b : SyncLogRow} : pos3Lt a b = true ↔
    (a.block_number < b.block_number ∨
     (a.block_number = b.block_number ∧ a.transaction_index < b.transaction_index) ∨
     (a.block_number = b.block_number ∧ a.transaction_index = b.transaction_index ∧
      a.log_index < b.log_index)) := by
  simp only [pos3Lt, Bool.or_eq_true, Bool.and_eq_true, decide_eq_true_eq, beq_iff_eq]
  tauto

/-- Not-less-than is transitive for the three-component ordering. -/
theorem pos3Lt_false_trans {a b c : SyncLogRow} (h1 : pos3Lt a b = false)
    (h2 : pos3Lt b c = false) : pos3Lt a c = false := by
  rw [← Bool.not_eq_true] at h1 h2 ⊢
  rw [pos3Lt_iff] at h1 h2 ⊢
  omega

/-- A fold of `chooseLater` stays inside the candidate set. -/
theorem foldl_chooseLater_mem (lt : SyncLogRow → SyncLogRow → Bool)
    (xs : List SyncLogRow) (a : SyncLogRow) :
    xs.foldl (chooseLater lt) a ∈ a :: xs := by
  induction xs generalizing a with
  | nil => simp
  | cons x t ih =>
    have h := ih (chooseLater lt a x)
    have hc : chooseLater lt a x = a ∨ chooseLater lt a x = x := by
      unfold chooseLater
      split <;> simp
    simp only [List.foldl_cons]
    rcases List.mem_cons.1 h with h | h
    · rcases hc with hc | hc <;> rw [h, hc] <;> simp
    · simp [h]

/-- `ORDER BY … DESC LIMIT 1` returns an element of the candidate list. -/
theorem latestSync_mem {lt : SyncLogRow → SyncLogRow → Bool} {l : List SyncLogRow}
    {x : SyncLogRow} (h : latestSync lt l = some x) : x ∈ l := by
  cases l with
  | nil => simp [latestSync] at h
  | cons a t =>
    simp only [latestSync, Option.some.injEq] at h
    rw [← h]
    exact foldl_chooseLater_mem lt t a

/-- The fold of `chooseLater pos3Lt` dominates every candidate in the
three-component order. -/
theorem foldl_chooseLater_ge (xs : List SyncLogRow) (a : SyncLogRow) :
    ∀ y ∈ a :: xs, pos3Lt (xs.foldl (chooseLater pos3Lt) a) y = false := by
  induction xs generalizing a with
  | nil =>
    intro y hy
    simp only [List.foldl_nil]
    rcases List.mem_cons.1 hy with rfl | hy2
    · rw [← Bool.not_eq_true, pos3Lt_iff]
      omega
    · simp at hy2
  | cons x t ih =>
    intro y hy
    have hstep : pos3Lt (chooseLater pos3Lt a x) a = false ∧
        pos3Lt (chooseLater pos3Lt a x) x = false := by
      unfold chooseLater
      split
      · rename_i hax
        rw [pos3Lt_iff] at hax
        constructor <;> rw [← Bool.not_eq_true, pos3Lt_iff] <;> omega
      · rename_i hax
        rw [pos3Lt_iff] at hax
        constructor <;> rw [← Bool.not_eq_true, pos3Lt_iff] <;> omega
    have hres := ih (chooseLater pos3Lt a x)
    have hhead := hres _ (List.mem_cons_self _ _)
    simp only [List.foldl_cons]
    rcases List.mem_cons.1 hy with rfl | hy2
    · exact pos3Lt_false_trans hhead hstep.1
    · rcases List.mem_cons.1 hy2 with rfl | hy3
      · exact pos3Lt_false_trans hhead hstep.2
      · exact hres y (List.mem_cons_of_mem _ hy3)

/-- The update-pass selection dominates every matching candidate. -/
theorem selectSyncUpdate_ge {logs : List SyncLogRow} {pool : String}
    {blk txi logi : Nat} {txh : String} {l : SyncLogRow}
    (h : selectSyncUpdate logs pool blk txi logi txh = some l) :
    ∀ l2 ∈ logs, syncMatchUpdate pool blk txi logi txh l2 = true →
      pos3Lt l l2 = false := by
  intro l2 hl2 hm
  unfold selectSyncUpdate at h
  rcases hf : logs.filter (syncMatchUpdate pool blk txi logi txh) with _ | ⟨a, t⟩
  · rw [hf] at h
    simp [latestSync] at h
  · rw [hf] at h
    simp only [latestSync, Option.some.injEq] at h
    have hmem : l2 ∈ a :: t := by
      rw [← hf]
      exact List.mem_filter.2 ⟨hl2, hm⟩
    rw [← h]
    exact foldl_chooseLater_ge t a l2 hmem

/-- C6 (amended): the update-pass reserve reconstructor selects a Sync event
of the queried pool that is strictly before the reference position in
`(block, transaction_index, log_index)` order, never one in the reference
swap's own transaction, and dominates every other matching event; it
returns `None` when no event matches; and both harm computations return 0
when the reserve snapshot is unavailable. (The detect-pass variant orders by
`(block, log_index)` only and does not exclude the reference's own
transaction — see the counterexample.) -/
theorem claim6_reserve_reconstruction :
    (∀ (logs : List SyncLogRow) (pool : String) (blk txi logi : Nat) (txh : String)
        (l : SyncLogRow),
      selectSyncUpdate logs pool blk txi logi txh = some l →
        l ∈ logs ∧
        lowerAddr l.address = pool ∧
        l.topic0 = TOPIC_SYNC_V2 ∧
        (l.block_number < blk ∨
         (l.block_number = blk ∧ l.transaction_index < txi) ∨
         (l.block_number = blk ∧ l.transaction_index = txi ∧ l.log_index < logi)) ∧
        ¬(l.block_number = blk ∧ l.tx_hash = txh) ∧
        (∀ l2 ∈ logs, syncMatchUpdate pool blk txi logi txh l2 = true →
          pos3Lt l l2 = false)) ∧
    (∀ (logs : List SyncLogRow) (pool : String) (blk txi logi : Nat) (txh : String),
      (∀ l ∈ logs, syncMatchUpdate pool blk txi logi txh l = false) →
        get_reserves_before_a1_update logs pool blk txi logi txh = none) ∧
    (∀ (b : Bool) (v0i v1i v0o v1o : Int),
      compute_harm_base_raw_update none b v0i v1i v0o v1o = 0) ∧
    (∀ (b : Bool) (victim : SwapRow),
      compute_harm_base_raw_detect none b victim = 0) := by
  refine ⟨?_, ?_, fun b v0i v1i v0o v1o => rfl, fun b victim => rfl⟩
  · intro logs pool blk txi logi txh l h
    have hmem : l ∈ logs.filter (syncMatchUpdate pool blk txi logi txh) :=
      latestSync_mem h
    have hfil := List.mem_filter.1 hmem
    have hm := hfil.2
    have hm2 := hm
    simp only [syncMatchUpdate, Bool.and_eq_true, Bool.or_eq_true, Bool.not_eq_true',
      Bool.and_eq_false_iff, beq_iff_eq, beq_eq_false_iff_ne, decide_eq_true_eq,
      ne_eq] at hm2
    refine ⟨hfil.1, ?_, ?_, ?_, ?_, selectSyncUpdate_ge h⟩
    · tauto
    · tauto
    · omega
    · tauto
  · intro logs pool blk txi logi txh h
    have hfe : logs.filter (syncMatchUpdate pool blk txi logi txh) = [] := by
      rw [List.filter_eq_nil_iff]
      intro l hl
      rw [h l hl]
      simp
    simp [get_reserves_before_a1_update, selectSyncUpdate, hfe, latestSync]

/-- Witness for C6 (amended) at the concrete log list: the selected event is
the prior-block Sync, not the same-transaction one. -/
theorem claim6_reserve_reconstruction_witness :
    syncPrior ∈ syncLogs ∧
    lowerAddr syncPrior.address = "0xp" ∧
    syncPrior.topic0 = TOPIC_SYNC_V2 ∧
    (syncPrior.block_number < 10 ∨
     (syncPrior.block_number = 10 ∧ syncPrior.transaction_index < 3) ∨
     (syncPrior.block_number = 10 ∧ syncPrior.transaction_index = 3 ∧
      syncPrior.log_index < 5)) ∧
    ¬(syncPrior.block_number = 10 ∧ syncPrior.tx_hash = "0xt") ∧
    (∀ l2 ∈ syncLogs, syncMatchUpdate "0xp" 10 3 5 "0xt" l2 = true →
      pos3Lt syncPrior l2 = false) :=
  claim6_reserve_reconstruction.1 syncLogs "0xp" 10 3 5 "0xt" syncPrior (by decide)

/-- Counterexample to C6 as stated: the detect-pass reconstructor picks the
Sync event that occurred in the reference swap's own transaction (same block
10, tx hash `0xt`, earlier log index) and returns its reserves (5, 5),
whereas the most recent prior Sync outside that transaction has reserves
(7, 7) (and is what the update-pass query returns). -/
theorem claim6_counterexample :
    get_reserves_before_a1_detect syncLogs "0xp" 10 5 = some (5, 5) ∧
    selectSyncDetect syncLogs "0xp" 10 5 = some syncSameTx ∧
    syncSameTx.block_number = 10 ∧
    syncSameTx.tx_hash = "0xt" ∧
    get_reserves_before_a1_update syncLogs "0xp" 10 3 5 "0xt" = some (7, 7) ∧
    ((5, 5) : Int × Int) ≠ (7, 7) := by
  refine ⟨by decide, by decide, by decide, by decide, by decide, by decide⟩

/-- Keys already present are preserved by the conflict-ignoring insert. -/
theorem insertKeys_mono (rows : List InsertRow) :
    ∀ (store : List InsertRow) (k : Nat × Nat × Nat),
      k ∈ store.map tripletKey →
      k ∈ (insertOnConflictDoNothing store rows).map tripletKey := by
  induction rows with
  | nil =>
    intro store k h
    simpa [insertOnConflictDoNothing] using h
  | cons r t ih =>
    intro store k h
    simp only [insertOnConflictDoNothing, List.foldl_cons] at *
    by_cases hr : tripletKey r ∈ store.map tripletKey
    · rw [if_pos hr]
      exact ih store k h
    · rw [if_neg hr]
      exact ih (store ++ [r]) k (by simp [h])

/-- After the insert, every inserted row's key is present. -/
theorem insertKeys_mem (rows : List InsertRow) :
    ∀ (store : List InsertRow) (r : InsertRow), r ∈ rows →
      tripletKey r ∈ (insertOnConflictDoNothing store rows).map tripletKey := by
  induction rows with
  | nil =>
    intro store r h
    simp at h
  | cons r2 t ih =>
    intro store r h
    rcases List.mem_cons.1 h with rfl | h2
    · simp only [insertOnConflictDoNothing, List.foldl_cons]
      by_cases hr : tripletKey r ∈ store.map tripletKey
      · rw [if_pos hr]
        exact insertKeys_mono t store _ hr
      · rw [if_neg hr]
        exact insertKeys_mono t (store ++ [r]) _ (by simp)
    · simp only [insertOnConflictDoNothing, List.foldl_cons]
      by_cases hr : tripletKey r2 ∈ store.map tripletKey
      · rw [if_pos hr]
        exact ih store r h2
      · rw [if_neg hr]
        exact ih (store ++ [r2]) r h2

/-- The conflict-ignoring insert preserves key uniqueness of the store. -/
theorem insert_keysNodup (rows : List InsertRow) :
    ∀ store : List InsertRow, (store.map tripletKey).Nodup →
      ((insertOnConflictDoNothing store rows).map tripletKey).Nodup := by
  induction rows with
  | nil =>
    intro store h
    simpa [insertOnConflictDoNothing] using h
  | cons r t ih =>
    intro store h
    simp only [insertOnConflictDoNothing, List.foldl_cons]
    by_cases hr : tripletKey r ∈ store.map tripletKey
    · rw [if_pos hr]
      exact ih store h
    · rw [if_neg hr]
      refine ih (store ++ [r]) ?_
      simp [List.nodup_append, h, hr]

/-- Inserting rows whose keys are all already present is a no-op. -/
theorem insert_stable (rows : List InsertRow) :
    ∀ store : List InsertRow,
      (∀ r ∈ rows, tripletKey r ∈ store.map tripletKey) →
      insertOnConflictDoNothing store rows = store := by
  induction rows with
  | nil =>
    intro store _
    rfl
  | cons r t ih =>
    intro store h
    simp only [insertOnConflictDoNothing, List.foldl_cons]
    rw [if_pos (h r (List.mem_cons_self _ _))]
    exact ih store (fun r2 h2 => h r2 (List.mem_cons_of_mem _ h2))

/-- C7: persisting detected triplets is idempotent on the
`(front_attack_swap_id, victim_swap_id, back_attack_swap_id)` key — a store
with unique triplet keys keeps unique keys under any batch insert, and
re-running the same batch (the detector over the same range on the same
data) changes nothing: the duplicate inserts are ignored, never duplicated
and never an error. -/
theorem claim7_idempotent_insert :
    ∀ store rows : List InsertRow,
      ((store.map tripletKey).Nodup →
        ((insertOnConflictDoNothing store rows).map tripletKey).Nodup) ∧
      insertOnConflictDoNothing (insertOnConflictDoNothing store rows) rows =
        insertOnConflictDoNothing store rows :=
  fun store rows =>
    ⟨insert_keysNodup rows store,
     insert_stable rows _ (fun r h => insertKeys_mem rows store r h)⟩

/-- Witness for C7 at a concrete store and batch (the same row twice). -/
theorem claim7_idempotent_insert_witness :
    ((insertOnConflictDoNothing [] [insertRowA, insertRowA]).map tripletKey).Nodup ∧
    insertOnConflictDoNothing
        (insertOnConflictDoNothing [] [insertRowA, insertRowA])
        [insertRowA, insertRowA] =
      insertOnConflictDoNothing [] [insertRowA, insertRowA] :=
  have h := claim7_idempotent_insert [] [insertRowA, insertRowA]
  ⟨h.1 (by decide), h.2⟩

/-- Count in a filtered list: the filter keeps all copies or none. -/
theorem count_filter_eq {α : Type} [BEq α] [LawfulBEq α] (p : α → Bool) (a : α)
    (l : List α) :
    List.count a (l.filter p) = if p a then List.count a l else 0 := by
  by_cases h : p a
  · rw [if_pos h, List.count_filter h]
  · rw [if_neg h, List.count_eq_zero]
    intro hmem
    exact h (List.mem_filter.1 hmem).2

/-- Count distributes over `flatMap` as a sum of per-element counts. -/
theorem count_flatMap {α β : Type} [BEq β] (f : α → List β) (l : List α) (b : β) :
    List.count b (l.flatMap f) = (l.map (fun x => List.count b (f x))).sum := by
  induction l with
  | nil => simp
  | cons x t ih => simp [List.flatMap_cons, List.count_append, ih]

/-- Summing an indicator mapped over a list counts the matches. -/
theorem sum_map_ite_count {α : Type} [BEq α] [LawfulBEq α] [DecidableEq α]
    (l : List α) (a : α) (c : Nat) :
    (l.map (fun x => if x = a then c else 0)).sum = l.count a * c := by
  induction l with
  | nil => simp
  | cons x t ih =>
    simp only [List.map_cons, List.sum_cons, ih, List.count_cons]
    by_cases h : x = a
    · subst h
      simp only [if_pos rfl, beq_self_eq_true, if_true]
      ring
    · have hb : (x == a) = false := by simp [h]
      simp [h, hb]

/-- Only the block-range bounds of the CTE `s` filter depend on the window. -/
theorem inS_congr {p c m1 M1 m2 M2 : Nat} {s : SwapRow}
    (h : (m1 ≤ s.block_number ∧ s.block_number ≤ M1) ↔
         (m2 ≤ s.block_number ∧ s.block_number ≤ M2)) :
    inS p c m1 M1 s = inS p c m2 M2 s := by
  rw [Bool.eq_iff_iff]
  simp only [inS, Bool.and_eq_true, decide_eq_true_eq]
  tauto

/-- A pair-joined back leg is at most `max_block_gap` blocks after the
front, and never before it. -/
theorem pairCond_bounds {stable gap : Nat} {s1 s2 : SwapRow}
    (h : pairCond stable gap s1 s2 = true) :
    s1.block_number ≤ s2.block_number ∧ s2.block_number ≤ s1.block_number + gap := by
  simp only [pairCond, posLt, Bool.and_eq_true, Bool.or_eq_true, decide_eq_true_eq,
    beq_iff_eq] at h
  omega

/-- A joined victim lies between the front and back legs in block order. -/
theorem victimCond_bounds {pool : Nat} {f b v : SwapRow}
    (h : victimCond pool f b v = true) :
    f.block_number ≤ v.block_number ∧ v.block_number ≤ b.block_number := by
  simp only [victimCond, posLe, Bool.and_eq_true, Bool.or_eq_true, decide_eq_true_eq,
    beq_iff_eq, bne_iff_ne, ne_eq] at h
  omega

/-- A front leg with no back candidate contributes no triplet. -/
theorem tripletsFor_none {swaps : List SwapRow}
    {pool chain stable gap minB maxB : Nat} {x : SwapRow}
    (h : backOf swaps pool chain stable gap minB maxB x = none) :
    tripletsFor swaps pool chain stable gap minB maxB x = [] := by
  unfold tripletsFor
  rw [h]

/-- A front leg with chosen back `s2` contributes one triplet per victim. -/
theorem tripletsFor_some {swaps : List SwapRow}
    {pool chain stable gap minB maxB : Nat} {x s2 : SwapRow}
    (h : backOf swaps pool chain stable gap minB maxB x = some s2) :
    tripletsFor swaps pool chain stable gap minB maxB x =
      (victimsFor swaps pool chain minB maxB x s2).map (fun v => (x, v, s2)) := by
  unfold tripletsFor
  rw [h]

/-- Counting a triplet in the mapped victim list counts the victim. -/
theorem count_map_mkTriplet (x s2 : SwapRow) (l : List SwapRow) (v : SwapRow) :
    List.count (x, v, s2) (l.map (fun w => (x, w, s2))) = List.count v l := by
  induction l with
  | nil => rfl
  | cons w t ih =>
    simp only [List.map_cons, List.count_cons, ih]
    by_cases h : w = v
    · subst h
      simp
    · have h1 : ((x, w, s2) == (x, v, s2)) = false := by
        simp [h]
      have h2 : (w == v) = false := by
        simp [h]
      rw [h1, h2]

/-- Count of one triplet in the contribution of one front leg. -/
theorem count_tripletsFor (swaps : List SwapRow)
    (pool chain stable gap minB maxB : Nat) (x f v b : SwapRow) :
    List.count (f, v, b) (tripletsFor swaps pool chain stable gap minB maxB x) =
      if x = f ∧ backOf swaps pool chain stable gap minB maxB f = some b then
        List.count v (victimsFor swaps pool chain minB maxB f b)
      else 0 := by
  rcases hb2 : backOf swaps pool chain stable gap minB maxB x with _ | s2
  · rw [tripletsFor_none hb2]
    by_cases hx : x = f
    · subst hx
      rw [if_neg (by simp [hb2])]
      simp
    · rw [if_neg (by tauto)]
      simp
  · rw [tripletsFor_some hb2]
    by_cases hx : x = f
    · subst hx
      by_cases hsb : s2 = b
      · subst hsb
        rw [if_pos ⟨rfl, hb2⟩]
        exact count_map_mkTriplet x s2 _ v
      · rw [if_neg (by
          rintro ⟨-, hc⟩
          rw [hb2] at hc
          exact hsb (by injection hc))]
        rw [List.count_eq_zero]
        intro hmem
        rw [List.mem_map] at hmem
        obtain ⟨w, -, hw⟩ := hmem
        exact hsb (congrArg (fun t => t.2.2) hw)
    · rw [if_neg (by tauto)]
      rw [List.count_eq_zero]
      intro hmem
      rw [List.mem_map] at hmem
      obtain ⟨w, -, hw⟩ := hmem
      exact hx (congrArg (fun t => t.1) hw)

/-- Factorization of the triplet count: front multiplicity times victim
multiplicity for the chosen back. -/
theorem count_detectedTriplets (swaps : List SwapRow)
    (pool chain stable gap minB maxB : Nat) (f v b : SwapRow) :
    List.count (f, v, b) (detectedTriplets swaps pool chain stable gap minB maxB) =
      List.count f (swaps.filter (inS pool chain minB maxB)) *
        (if backOf swaps pool chain stable gap minB maxB f = some b then
          List.count v (victimsFor swaps pool chain minB maxB f b)
         else 0) := by
  unfold detectedTriplets
  rw [count_flatMap]
  have hfun : ∀ x ∈ swaps.filter (inS pool chain minB maxB),
      (fun x => List.count (f, v, b)
        (tripletsFor swaps pool chain stable gap minB maxB x)) x =
      (fun x => if x = f then
          (if backOf swaps pool chain stable gap minB maxB f = some b then
            List.count v (victimsFor swaps pool chain minB maxB f b)
          else 0)
        else 0) x := by
    intro x _
    show List.count (f, v, b) (tripletsFor swaps pool chain stable gap minB maxB x) =
      if x = f then
        (if backOf swaps pool chain stable gap minB maxB f = some b then
          List.count v (victimsFor swaps pool chain minB maxB f b)
        else 0)
      else 0
    rw [count_tripletsFor]
    by_cases hx : x = f <;>
      by_cases hp : backOf swaps pool chain stable gap minB maxB f = some b <;>
        simp [hx, hp]
  rw [List.map_congr_left hfun, sum_map_ite_count]

/-- For a front leg in the core chunk, the expanded window sees exactly the
same back-leg candidates as the full range. -/
theorem backCandidates_window_eq (swaps : List SwapRow)
    (pool chain stable gap minB maxB cur coreTo winMin winMax : Nat) (f : SwapRow)
    (hwmin : winMin = max (cur - gap) minB) (hwmax : winMax = min (coreTo + gap) maxB)
    (hcur : minB ≤ cur) (hcore : coreTo ≤ maxB)
    (hf1 : cur ≤ f.block_number) (hf2 : f.block_number ≤ coreTo) :
    backCandidates swaps pool chain stable gap winMin winMax f =
      backCandidates swaps pool chain stable gap minB maxB f := by
  unfold backCandidates
  apply List.filter_congr
  intro s2 _
  by_cases hp : pairCond stable gap f s2 = true
  · have hb := pairCond_bounds hp
    rw [hp, Bool.and_true, Bool.and_true]
    exact inS_congr (by omega)
  · have hp2 : pairCond stable gap f s2 = false := by
      rwa [Bool.not_eq_true] at hp
    rw [hp2, Bool.and_false, Bool.and_false]

/-- The chosen back leg is window-independent for core fronts. -/
theorem backOf_window_eq (swaps : List SwapRow)
    (pool chain stable gap minB maxB cur coreTo winMin winMax : Nat) (f : SwapRow)
    (hwmin : winMin = max (cur - gap) minB) (hwmax : winMax = min (coreTo + gap) maxB)
    (hcur : minB ≤ cur) (hcore : coreTo ≤ maxB)
    (hf1 : cur ≤ f.block_number) (hf2 : f.block_number ≤ coreTo) :
    backOf swaps pool chain stable gap winMin winMax f =
      backOf swaps pool chain stable gap minB maxB f := by
  unfold backOf
  rw [backCandidates_window_eq swaps pool chain stable gap minB maxB cur coreTo
    winMin winMax f hwmin hwmax hcur hcore hf1 hf2]

/-- The front multiplicity is window-independent for core fronts. -/
theorem count_front_window_eq (swaps : List SwapRow)
    (pool chain minB maxB cur coreTo winMin winMax gap : Nat) (f : SwapRow)
    (hwmin : winMin = max (cur - gap) minB) (hwmax : winMax = min (coreTo + gap) maxB)
    (hcur : minB ≤ cur) (hcore : coreTo ≤ maxB)
    (hf1 : cur ≤ f.block_number) (hf2 : f.block_number ≤ coreTo) :
    List.count f (swaps.filter (inS pool chain winMin winMax)) =
      List.count f (swaps.filter (inS pool chain minB maxB)) := by
  rw [count_filter_eq, count_filter_eq,
    inS_congr (p := pool) (c := chain) (s := f) (by omega :
      (winMin ≤ f.block_number ∧ f.block_number ≤ winMax) ↔
      (minB ≤ f.block_number ∧ f.block_number ≤ maxB))]

/-- The victim multiplicity is window-independent for core fronts whose
back satisfies the pair condition. -/
theorem count_victims_window_eq (swaps : List SwapRow)
    (pool chain stable gap minB maxB cur coreTo winMin winMax : Nat) (f b v : SwapRow)
    (hwmin : winMin = max (cur - gap) minB) (hwmax : winMax = min (coreTo + gap) maxB)
    (hcur : minB ≤ cur) (hcore : coreTo ≤ maxB)
    (hf1 : cur ≤ f.block_number) (hf2 : f.block_number ≤ coreTo)
    (hpb : pairCond stable gap f b = true) :
    List.count v (victimsFor swaps pool chain winMin winMax f b) =
      List.count v (victimsFor swaps pool chain minB maxB f b) := by
  unfold victimsFor
  rw [count_filter_eq, count_filter_eq]
  by_cases hvc : victimCond pool f b v = true
  · have hv := victimCond_bounds hvc
    have hb := pairCond_bounds hpb
    rw [inS_congr (p := pool) (c := chain) (s := v) (by omega :
      (winMin ≤ v.block_number ∧ v.block_number ≤ winMax) ↔
      (minB ≤ v.block_number ∧ v.block_number ≤ maxB))]
  · have hvc2 : victimCond pool f b v = false := by
      rwa [Bool.not_eq_true] at hvc
    rw [hvc2, Bool.and_false, Bool.and_false]

/-- For a front leg in the core chunk, the expanded window and the full
range detect each triplet of that front equally often. -/
theorem count_detect_window_eq (swaps : List SwapRow)
    (pool chain stable gap minB maxB cur coreTo winMin winMax : Nat) (f v b : SwapRow)
    (hwmin : winMin = max (cur - gap) minB) (hwmax : winMax = min (coreTo + gap) maxB)
    (hcur : minB ≤ cur) (hcore : coreTo ≤ maxB)
    (hf1 : cur ≤ f.block_number) (hf2 : f.block_number ≤ coreTo) :
    List.count (f, v, b) (detectedTriplets swaps pool chain stable gap winMin winMax) =
      List.count (f, v, b) (detectedTriplets swaps pool chain stable gap minB maxB) := by
  rw [count_detectedTriplets, count_detectedTriplets]
  rw [backOf_window_eq swaps pool chain stable gap minB maxB cur coreTo winMin winMax f
    hwmin hwmax hcur hcore hf1 hf2]
  rw [count_front_window_eq swaps pool chain minB maxB cur coreTo winMin winMax gap f
    hwmin hwmax hcur hcore hf1 hf2]
  congr 1
  rcases hbf : backOf swaps pool chain stable gap minB maxB f with _ | b2
  · rfl
  · by_cases hsb : b2 = b
    · subst hsb
      rw [if_pos rfl, if_pos rfl]
      have hpb := (backOf_spec hbf).2.2
      exact count_victims_window_eq swaps pool chain stable gap minB maxB cur coreTo
        winMin winMax f b2 v hwmin hwmax hcur hcore hf1 hf2 hpb
    · rw [if_neg (by simp [hsb]), if_neg (by simp [hsb])]

/-- A triplet whose front block is outside the queried range is never
detected. -/
theorem count_detect_out_of_range (swaps : List SwapRow)
    (pool chain stable gap minB maxB : Nat) (f v b : SwapRow)
    (h : f.block_number < minB ∨ maxB < f.block_number) :
    List.count (f, v, b) (detectedTriplets swaps pool chain stable gap minB maxB) = 0 := by
  rw [count_detectedTriplets]
  have hf : inS pool chain minB maxB f = false := by
    rw [← Bool.not_eq_true]
    simp only [inS, Bool.and_eq_true, decide_eq_true_eq]
    intro hc
    have h1 := hc.1.1.2
    have h2 := hc.1.2
    omega
  rw [count_filter_eq, hf]
  simp

/-- From any cursor, the remaining window loop detects each triplet exactly
as often as a single pass over the whole range detects it, restricted to
fronts at or after the cursor. -/
theorem count_detectWindowedFrom (swaps : List SwapRow)
    (pool chain stable gap minB maxB : Nat) (f v b : SwapRow) :
    ∀ (n cur : Nat), maxB + 1 - cur ≤ n → minB ≤ cur →
      List.count (f, v, b) (detectWindowedFrom swaps pool chain stable gap minB maxB cur) =
        if cur ≤ f.block_number then
          List.count (f, v, b) (detectedTriplets swaps pool chain stable gap minB maxB)
        else 0 := by
  intro n
  induction n with
  | zero =>
    intro cur hn hcur
    have hc : ¬(cur ≤ maxB) := by omega
    rw [detectWindowedFrom, dif_neg hc, List.count_nil]
    by_cases hf : cur ≤ f.block_number
    · rw [if_pos hf,
        count_detect_out_of_range swaps pool chain stable gap minB maxB f v b
          (Or.inr (by omega))]
    · rw [if_neg hf]
  | succ n ih =>
    intro cur hn hcur
    by_cases hc : cur ≤ maxB
    · have hBB : BLOCK_BATCH = 100000 := rfl
      rw [detectWindowedFrom, dif_pos hc]
      simp only [List.count_append]
      rw [count_filter_eq]
      have hrec := ih (min (cur + BLOCK_BATCH - 1) maxB + 1) (by omega) (by omega)
      rw [hrec]
      by_cases h1 : cur ≤ f.block_number
      · by_cases h2 : f.block_number ≤ min (cur + BLOCK_BATCH - 1) maxB
        · have hwin := count_detect_window_eq swaps pool chain stable gap minB maxB cur
            (min (cur + BLOCK_BATCH - 1) maxB)
            (max (cur - gap) minB)
            (min (min (cur + BLOCK_BATCH - 1) maxB + gap) maxB)
            f v b rfl rfl hcur (by omega) h1 h2
          rw [hwin]
          simp [h1, h2]
          omega
        · rw [if_neg (by simp [h2])]
          rw [if_pos (by omega), if_pos h1]
          omega
      · rw [if_neg (by simp [h1])]
        rw [if_neg (by omega), if_neg h1]
    · rw [detectWindowedFrom, dif_neg hc, List.count_nil]
      by_cases hf : cur ≤ f.block_number
      · rw [if_pos hf,
          count_detect_out_of_range swaps pool chain stable gap minB maxB f v b
            (Or.inr (by omega))]
      · rw [if_neg hf]

/-- C1: running the matcher window-by-window (100 000-block core chunks,
expanded by `max_block_gap` on both boundaries, results filtered to fronts
in the core chunk) detects exactly the same triplets, equally often, as a
single unwindowed pass over `[min_block, max_block]`; and when the swap
rows are distinct, every detected triplet — including one whose front and
back legs straddle a window boundary within `max_block_gap` — is detected
exactly once. -/
theorem claim1_windowing_equivalence :
    ∀ (swaps : List SwapRow) (pool chain stable gap minB maxB : Nat)
      (t : SwapRow × SwapRow × SwapRow),
      List.count t (detectWindowed swaps pool chain stable gap minB maxB) =
        List.count t (detectedTriplets swaps pool chain stable gap minB maxB) ∧
      (swaps.Nodup → t ∈ detectedTriplets swaps pool chain stable gap minB maxB →
        List.count t (detectWindowed swaps pool chain stable gap minB maxB) = 1) := by
  intro swaps pool chain stable gap minB maxB t
  obtain ⟨f, v, b⟩ := t
  have heq : List.count (f, v, b) (detectWindowed swaps pool chain stable gap minB maxB) =
      List.count (f, v, b) (detectedTriplets swaps pool chain stable gap minB maxB) := by
    unfold detectWindowed
    rw [count_detectWindowedFrom swaps pool chain stable gap minB maxB f v b
      (maxB + 1 - minB) minB (le_refl _) (le_refl _)]
    by_cases h : minB ≤ f.block_number
    · rw [if_pos h]
    · rw [if_neg h,
        count_detect_out_of_range swaps pool chain stable gap minB maxB f v b
          (Or.inl (by omega))]
  refine ⟨heq, ?_⟩
  intro hnd hmem
  rw [heq]
  have hpos : 0 < List.count (f, v, b) (detectedTriplets swaps pool chain stable gap minB maxB) :=
    List.count_pos_iff.2 hmem
  have hle : List.count (f, v, b) (detectedTriplets swaps pool chain stable gap minB maxB) ≤ 1 := by
    rw [count_detectedTriplets]
    have hcf : List.count f (swaps.filter (inS pool chain minB maxB)) ≤ 1 :=
      List.nodup_iff_count_le_one.1 (hnd.filter _) f
    rcases hbf : backOf swaps pool chain stable gap minB maxB f with _ | b2
    · simp
    · by_cases hsb : b2 = b
      · subst hsb
        rw [if_pos rfl]
        have hcv : List.count v (victimsFor swaps pool chain minB maxB f b2) ≤ 1 :=
          List.nodup_iff_count_le_one.1 (hnd.filter _) v
        simpa using Nat.mul_le_mul hcf hcv
      · rw [if_neg (by simp [hsb])]
        simp
  omega

/-- Witness for C1 at the concrete scenario (single window): the triplet is
detected by the windowed pass exactly as by the unwindowed pass, and
exactly once. -/
theorem claim1_windowing_equivalence_witness :
    List.count (swapS1, swapS2, swapS3) (detectWindowed scenarioSwaps 1 1 10 2 0 200) =
      List.count (swapS1, swapS2, swapS3) (detectedTriplets scenarioSwaps 1 1 10 2 0 200) ∧
    List.count (swapS1, swapS2, swapS3) (detectWindowed scenarioSwaps 1 1 10 2 0 200) = 1 :=
  have h := claim1_windowing_equivalence scenarioSwaps 1 1 10 2 0 200
    (swapS1, swapS2, swapS3)
  ⟨h.1, h.2 (by decide) (by decide)⟩
